import Mathlib

/-!
Verification of the feldera controller core against its specification.

The development shallowly embeds the Rust sources:
  - crates/adapters/src/controller/error.rs   (error taxonomy and codes)
  - crates/adapters/src/jit/deinput.rs        (DeCollectionStream, DeZSetHandles)
  - crates/dataflow-jit/src/main.rs           (the run step cycle)
  - crates/dbsp/examples/tutorial/tutorial9.rs (output emission loop)
  - sql-to-dbsp-compiler/lib/hashing/src/lib.rs (zset_to_rows, must_equal)

Machine integers are modelled as Int, byte strings as List Nat, fallible
Rust functions as Except or Option, and a reachable Rust panic as a
dedicated outcome constructor. Components of the repository that are not
part of the given sources (the dataflow-jit facade push and flush, the
dbsp consolidate operation, the controller state guard) are modelled from
the specification and are marked as such in their doc comments.
-/

/-- Error type of the external dbsp runtime. Only the fields the controller
reads are modelled: the stable code and the display text. -/
structure DBSPError where
  error_code : String
  display : String
deriving DecidableEq

/-- Controller configuration error, from ConfigError in controller/error.rs. -/
inductive ConfigError where
  | ConfigParseError (error : String)
  | DuplicateInputEndpoint (endpoint_name : String)
  | DuplicateOutputEndpoint (endpoint_name : String)
  | UnknownInputFormat (format_name : String)
  | UnknownOutputFormat (format_name : String)
  | UnknownInputTransport (transport_name : String)
  | UnknownOutputTransport (transport_name : String)
  | UnknownInputStream (stream_name : String)
  | UnknownOutputStream (stream_name : String)
deriving DecidableEq

/-- ConfigError error_code, from impl DetailedError for ConfigError. -/
def ConfigError.error_code : ConfigError → String
  | .ConfigParseError _ => "ConfigParseError"
  | .DuplicateInputEndpoint _ => "DuplicateInputEndpoint"
  | .DuplicateOutputEndpoint _ => "DuplicateOutputEndpoint"
  | .UnknownInputFormat _ => "UnknownInputFormat"
  | .UnknownOutputFormat _ => "UnknownOutputFormat"
  | .UnknownInputTransport _ => "UnknownInputTransport"
  | .UnknownOutputTransport _ => "UnknownOutputTransport"
  | .UnknownInputStream _ => "UnknownInputStream"
  | .UnknownOutputStream _ => "UnknownOutputStream"

/-- ConfigError display text, from impl Display for ConfigError.
The byte \x27 is the ASCII single quote used by the Rust format strings. -/
def ConfigError.display : ConfigError → String
  | .ConfigParseError error =>
      "Failed to parse pipeline configuration: \x27" ++ error ++ "\x27"
  | .DuplicateInputEndpoint endpoint_name =>
      "Input endpoint \x27" ++ endpoint_name ++ "\x27 already exists"
  | .UnknownInputFormat format_name =>
      "Unknown input format \x27" ++ format_name ++ "\x27"
  | .UnknownInputTransport transport_name =>
      "Unknown input transport \x27" ++ transport_name ++ "\x27"
  | .DuplicateOutputEndpoint endpoint_name =>
      "Output endpoint \x27" ++ endpoint_name ++ "\x27 already exists"
  | .UnknownOutputFormat format_name =>
      "Unknown output format \x27" ++ format_name ++ "\x27"
  | .UnknownOutputTransport transport_name =>
      "Unknown output transport \x27" ++ transport_name ++ "\x27"
  | .UnknownInputStream stream_name =>
      "Unknown table \x27" ++ stream_name ++ "\x27"
  | .UnknownOutputStream stream_name =>
      "Unknown output table or view \x27" ++ stream_name ++ "\x27"

/-- Controller error, from ControllerError in controller/error.rs. -/
inductive ControllerError where
  | IoError (context : String) (kind : String) (os_error : Option Int)
  | CliArgsError (error : String)
  | Config (config_error : ConfigError)
  | ParseError (endpoint_name : String) (error : String)
  | EncodeError (endpoint_name : String) (error : String)
  | InputTransportError (endpoint_name : String) (fatal : Bool) (error : String)
  | OutputTransportError (endpoint_name : String) (fatal : Bool) (error : String)
  | PipelineTerminating
  | DbspError (error : DBSPError)
  | PrometheusError (error : String)
  | DbspPanic
  | ControllerPanic
deriving DecidableEq

/-- ControllerError error_code, from impl DetailedError for ControllerError. -/
def ControllerError.error_code : ControllerError → String
  | .IoError _ _ _ => "ControllerIOError"
  | .CliArgsError _ => "ControllerCliArgsError"
  | .Config config_error => "ConfigError." ++ config_error.error_code
  | .ParseError _ _ => "ParseError"
  | .EncodeError _ _ => "EncodeError"
  | .InputTransportError _ _ _ => "InputTransportError"
  | .OutputTransportError _ _ _ => "OutputTransportError"
  | .PipelineTerminating => "PipelineTerminating"
  | .PrometheusError _ => "PrometheusError"
  | .DbspError error => error.error_code
  | .DbspPanic => "DbspPanic"
  | .ControllerPanic => "ControllerPanic"

/-- ControllerError display text, from impl Display for ControllerError. -/
def ControllerError.display : ControllerError → String
  | .IoError context kind os_error =>
      "I/O error " ++ context ++ ": " ++
        (match os_error with
          | some n => toString n
          | none => "") ++ "(" ++ kind
  | .CliArgsError error =>
      "Error parsing command line arguments: \x27" ++ error ++ "\x27"
  | .Config config_error =>
      "invalid controller configuration: \x27" ++ config_error.display ++ "\x27"
  | .InputTransportError endpoint_name fatal error =>
      (if fatal then "FATAL " else "") ++
        "error on input endpoint \x27" ++ endpoint_name ++ "\x27: \x27" ++ error ++ "\x27"
  | .OutputTransportError endpoint_name fatal error =>
      (if fatal then "FATAL " else "") ++
        "error on output endpoint \x27" ++ endpoint_name ++ "\x27: \x27" ++ error ++ "\x27"
  | .ParseError endpoint_name error =>
      "parse error on input endpoint \x27" ++ endpoint_name ++ "\x27: \x27" ++ error ++ "\x27"
  | .EncodeError endpoint_name error =>
      "encoder error on output endpoint \x27" ++ endpoint_name ++ "\x27: \x27" ++ error ++ "\x27"
  | .PipelineTerminating =>
      "Operation failed to complete because the pipeline is shutting down"
  | .PrometheusError error =>
      "Error in the Prometheus metrics module: \x27" ++ error ++ "\x27"
  | .DbspError error =>
      "DBSP error: \x27" ++ error.display ++ "\x27"
  | .DbspPanic => "Panic inside the DBSP runtime"
  | .ControllerPanic => "Panic inside the DBSP controller"

/-- Record formats known to the controller catalog, from catalog RecordFormat. -/
inductive RecordFormat where
  | Json
  | Csv
deriving DecidableEq

/-- Result of a Rust call that either returns a value normally or panics.
A reachable todo or panic in the source is embedded as the panicked
constructor carrying the panic message. -/
inductive PanicOr (S : Type) where
  | ok (value : S)
  | panicked (msg : String)
deriving DecidableEq

/-- Message produced by the Rust todo macro when it panics. -/
def todoMsg : String := "not yet implemented"

/-- One live decoder stream bound to one destination collection, holding an
internal buffer of undispatched weighted rows. R is the decoded row type;
bytes are List Nat. This models the state of a JitDeCollectionStream from
the dataflow-jit facade. -/
structure JitStream (R : Type) where
  buffer : List (R × Int)
deriving DecidableEq

/-- Modelled from the spec: the push operation of JitDeCollectionStream
(dataflow-jit facade, not among the given sources): decode one logical
record from the byte payload with the format decoder dec and append it to
the internal buffer with the given weight; a decoding failure returns a
ParseError and leaves the buffer unchanged so later calls stay usable. -/
def JitStream.push {R : Type} (dec : List Nat → Option R) (s : JitStream R)
    (data : List Nat) (w : Int) : Except ControllerError (JitStream R) :=
  match dec data with
  | some r => .ok ⟨s.buffer ++ [(r, w)]⟩
  | none => .error (.ParseError ("") ("decode failure"))

/-- DeCollectionStream insert, from impl DeCollectionStream in
adapters/src/jit/deinput.rs: push the payload with weight 1. -/
def JitStream.insert {R : Type} (dec : List Nat → Option R) (s : JitStream R)
    (data : List Nat) : Except ControllerError (JitStream R) :=
  s.push dec data 1

/-- DeCollectionStream delete, from impl DeCollectionStream in
adapters/src/jit/deinput.rs: push the payload with weight -1. -/
def JitStream.delete {R : Type} (dec : List Nat → Option R) (s : JitStream R)
    (data : List Nat) : Except ControllerError (JitStream R) :=
  s.push dec data (-1)

/-- DeCollectionStream fork, from adapters/src/jit/deinput.rs: the Rust
implementation returns Box::new(self.clone()), a clone of the stream that
writes into the same destination collection. -/
def JitStream.fork {R : Type} (s : JitStream R) : JitStream R := s

/-- Modelled from the spec: flush dispatches all buffered weighted rows
into the backing collection owned by the circuit (appending them to the
pending appends of the destination) and clears the buffer. Returns the
emptied stream and the grown destination. -/
def JitStream.flush {R : Type} (s : JitStream R) (dest : List (R × Int)) :
    JitStream R × List (R × Int) :=
  (⟨[]⟩, dest ++ s.buffer)

/-- DeZSetHandles, from adapters/src/jit/deinput.rs: pre-compiled
deserializer handles for all supported formats; only json wiring exists. -/
structure DeZSetHandles (R : Type) where
  json : JitStream R

/-- DeZSetHandles configure_deserializer, from impl DeCollectionHandle for
DeZSetHandles in adapters/src/jit/deinput.rs. The Csv arm of the Rust
match is the todo macro, which panics. -/
def DeZSetHandles.configure_deserializer {R : Type} (h : DeZSetHandles R) :
    RecordFormat → PanicOr (JitStream R)
  | .Json => .ok h.json
  | .Csv => .panicked todoMsg

/-- Net weight of a key in a list of weighted rows (a Z-set given by an
unconsolidated list of key and weight pairs). -/
def wt {K : Type} [DecidableEq K] : List (K × Int) → K → Int
  | [], _ => 0
  | (k₂, w) :: t, k => (if k₂ = k then w else 0) + wt t k

/-- Action performed by one forked stream: a single insert or a flush. -/
inductive FAct where
  | ins
  | fl
deriving DecidableEq

/-- Joint state of two forked streams writing into one shared destination
collection. -/
structure ForkState (R : Type) where
  s1 : JitStream R
  s2 : JitStream R
  dest : List (R × Int)

/-- Buffer of the stream selected by the boolean stream id. -/
def bufOf {R : Type} (b : Bool) (st : ForkState R) : List (R × Int) :=
  if b then st.s2.buffer else st.s1.buffer

/-- Execute one action of one of the two forked streams. An insert that
fails to decode leaves the state unchanged. -/
def stepOp {R : Type} (dec : List Nat → Option R) (data : List Nat)
    (st : ForkState R) : Bool × FAct → ForkState R
  | (false, .ins) =>
      match JitStream.insert dec st.s1 data with
      | .ok s => ⟨s, st.s2, st.dest⟩
      | .error _ => st
  | (true, .ins) =>
      match JitStream.insert dec st.s2 data with
      | .ok s => ⟨st.s1, s, st.dest⟩
      | .error _ => st
  | (false, .fl) => ⟨(st.s1.flush st.dest).1, st.s2, (st.s1.flush st.dest).2⟩
  | (true, .fl) => ⟨st.s1, (st.s2.flush st.dest).1, (st.s2.flush st.dest).2⟩

/-- Execute an interleaved schedule of actions of the two forked streams. -/
def execOps {R : Type} (dec : List Nat → Option R) (data : List Nat)
    (sched : List (Bool × FAct)) (st : ForkState R) : ForkState R :=
  sched.foldl (stepOp dec data) st

/-- Projection of a schedule onto the actions of one stream. -/
def proj (b : Bool) (sched : List (Bool × FAct)) : List FAct :=
  (sched.filter (fun o => o.1 == b)).map (fun o => o.2)

/-- Sum of the net weight of a key over both stream buffers and the shared
destination. -/
def totalWt {R : Type} [DecidableEq R] (st : ForkState R) (k : R) : Int :=
  wt st.s1.buffer k + wt st.s2.buffer k + wt st.dest k

/-- Pipeline lifecycle states, from the PipelineState description of the
specification data model. -/
inductive PipelineState where
  | Initializing
  | Running
  | Paused
  | Terminating
  | Terminated
deriving DecidableEq

/-- Modelled from the spec: the entry guard of every controller operation
(the controller implementation is not among the given sources): an
operation attempted while the pipeline is Terminating or Terminated fails
immediately with the dedicated PipelineTerminating error; otherwise the
operation proceeds and its result is returned. -/
def guardOperation {A : Type} (st : PipelineState) (op : A) :
    Except ControllerError A :=
  if st = PipelineState.Terminating ∨ st = PipelineState.Terminated then
    .error .PipelineTerminating
  else
    .ok op

/-- Events of the one-step cycle of the dataflow-jit driver. -/
inductive RunEvent (K : Type) where
  | append (target : K)
  | step
  | consolidate (target : K)
deriving DecidableEq

/-- Event trace of the run function of crates/dataflow-jit/src/main.rs:
first the loop appending every configured input to the circuit, then the
single circuit step, then the loop consolidating every configured output. -/
def runTrace {K : Type} (inputs outputs : List K) : List (RunEvent K) :=
  inputs.map RunEvent.append ++ [RunEvent.step] ++ outputs.map RunEvent.consolidate

/-- Modelled from the spec: consolidation of the pending appends of one
stream (the dbsp circuit runtime is an external collaborator): the batch
holds one entry per distinct key carrying its net weight, and rows whose
net weight is zero are dropped. -/
def consolidate {K : Type} [DecidableEq K] (pending : List (K × Int)) :
    List (K × Int) :=
  ((pending.map Prod.fst).dedup).filterMap
    (fun k => if wt pending k = 0 then none else some (k, wt pending k))

/-- Output emission loop of crates/dbsp/examples/tutorial/tutorial9.rs:
iterate over the consolidated batch and emit only entries whose weight is
not zero. -/
def emitOutput {K : Type} (batch : List (K × Int)) : List (K × Int) :=
  batch.filter (fun p => p.2 != 0)

/-- Sum of the weights of a Z-set, from the weighted_count of the dbsp
BatchReader as used by zset_to_rows. -/
def weighted_count {K : Type} (set : List (K × Int)) : Int :=
  (set.map Prod.snd).sum

/-- Inner loop of zset_to_rows from
sql-to-dbsp-compiler/lib/hashing/src/lib.rs: walk the cursor over the keys
of the set; panic (None) when a weight is negative, otherwise emit one row
copy per unit of weight. -/
def zsetRowsGo {K Row : Type} (to_row : K → Row) :
    List (K × Int) → Option (List Row)
  | [] => some []
  | (k, w) :: t =>
      if w < 0 then none
      else (zsetRowsGo to_row t).map (List.replicate w.toNat (to_row k) ++ ·)

/-- zset_to_rows from sql-to-dbsp-compiler/lib/hashing/src/lib.rs: convert
a Z-set to a vector of rows, an element of weight w generating w copies.
The usize conversion of the weighted count panics (None) when the count is
negative, and the loop panics (None) on any negative weight. -/
def zset_to_rows {K Row : Type} (to_row : K → Row) (set : List (K × Int)) :
    Option (List Row) :=
  if weighted_count set < 0 then none else zsetRowsGo to_row set

/-- Z-set negation, from neg_by_ref of the dbsp OrdZSet: negate every
weight. -/
def zneg {K : Type} (l : List (K × Int)) : List (K × Int) :=
  l.map (fun p => (p.1, -p.2))

/-- Z-set addition, from add_by_ref of the dbsp OrdZSet: merge the two
key-sorted batches, summing the weights of equal keys and dropping keys
whose summed weight is zero. -/
def zadd {K : Type} [LinearOrder K] :
    List (K × Int) → List (K × Int) → List (K × Int)
  | [], ys => ys
  | xs, [] => xs
  | (k₁, w₁) :: xs, (k₂, w₂) :: ys =>
      if k₁ < k₂ then (k₁, w₁) :: zadd xs ((k₂, w₂) :: ys)
      else if k₂ < k₁ then (k₂, w₂) :: zadd ((k₁, w₁) :: xs) ys
      else if w₁ + w₂ = 0 then zadd xs ys
      else (k₁, w₁ + w₂) :: zadd xs ys
termination_by xs ys => xs.length + ys.length

/-- must_equal from sql-to-dbsp-compiler/lib/hashing/src/lib.rs: build the
difference left plus the negation of right; return true exactly when that
difference is the zero Z-set (the printing of the diff on the false path
has no observable value and is not modelled). -/
def must_equal {K : Type} [LinearOrder K] (left right : List (K × Int)) :
    Bool :=
  (zadd left (zneg right)).isEmpty

/-- Representation invariant of an OrdZSet batch: keys strictly sorted. -/
def ZSorted {K : Type} [LinearOrder K] (l : List (K × Int)) : Prop :=
  l.Pairwise (fun p q => p.1 < q.1)

/-- Representation invariant of an OrdZSet batch: no key has weight 0. -/
def ZNonzero {K : Type} (l : List (K × Int)) : Prop :=
  ∀ p ∈ l, p.2 ≠ 0

/-- Decoder used by the concrete witnesses: the row is the first byte. -/
def dec₀ : List Nat → Option Nat := List.head?

/-- Concrete interleaved schedule used by the fork witness. -/
def sched₀ : List (Bool × FAct) :=
  [(false, FAct.ins), (true, FAct.ins), (true, FAct.fl), (false, FAct.fl)]

/-- Concrete pending appends used by the consolidation witness. -/
def pending₀ : List (Nat × Int) := [(1, 1), (1, -1), (2, 3)]

/-- Concrete Z-set used by the zset_to_rows witness. -/
def set₀ : List (Nat × Int) := [(1, 2), (2, 0), (3, 1)]

/-- Concrete Z-set used by the must_equal witness. -/
def zs₀ : List (Nat × Int) := [(1, 2), (2, -1)]

theorem wt_nil {K : Type} [DecidableEq K] (k : K) : wt [] k = 0 := rfl

theorem wt_cons {K : Type} [DecidableEq K] (k₂ : K) (w : Int)
    (t : List (K × Int)) (k : K) :
    wt ((k₂, w) :: t) k = (if k₂ = k then w else 0) + wt t k := rfl

theorem wt_append {K : Type} [DecidableEq K] (a b : List (K × Int)) (k : K) :
    wt (a ++ b) k = wt a k + wt b k := by
  induction a with
  | nil => simp [wt]
  | cons p t ih =>
    obtain ⟨k₂, w⟩ := p
    simp [wt, ih]
    ring

theorem execOps_cons {R : Type} (dec : List Nat → Option R) (data : List Nat)
    (o : Bool × FAct) (t : List (Bool × FAct)) (st : ForkState R) :
    execOps dec data (o :: t) st = execOps dec data t (stepOp dec data st o) := rfl

theorem stepOp_totalWt {R : Type} [DecidableEq R] {dec : List Nat → Option R}
    {data : List Nat} {r : R} (h : dec data = some r) (st : ForkState R)
    (o : Bool × FAct) (k : R) :
    totalWt (stepOp dec data st o) k =
      totalWt st k + (if o.2 = FAct.ins then (if r = k then 1 else 0) else 0) := by
  obtain ⟨b, a⟩ := o
  cases b <;> cases a <;>
    simp [stepOp, JitStream.insert, JitStream.push, JitStream.flush, h,
      totalWt, wt_append, wt_cons, wt_nil] <;> ring

theorem execOps_totalWt {R : Type} [DecidableEq R] {dec : List Nat → Option R}
    {data : List Nat} {r : R} (h : dec data = some r) :
    ∀ (sched : List (Bool × FAct)) (st : ForkState R) (k : R),
      totalWt (execOps dec data sched st) k =
        totalWt st k +
          ((sched.filter (fun o => o.2 == FAct.ins)).length : Int) *
            (if r = k then 1 else 0) := by
  intro sched
  induction sched with
  | nil => intro st k; simp [execOps]
  | cons o t ih =>
    intro st k
    rw [execOps_cons, ih, stepOp_totalWt h]
    by_cases ho : o.2 = FAct.ins
    · simp [List.filter_cons, ho]
      by_cases hrk : r = k
      · simp [hrk]
        ring
      · simp [hrk]
    · simp [List.filter_cons, ho]

theorem proj_ins_count (sched : List (Bool × FAct)) :
    (sched.filter (fun o => o.2 == FAct.ins)).length =
      (proj false sched).count FAct.ins + (proj true sched).count FAct.ins := by
  induction sched with
  | nil => simp [proj]
  | cons o t ih =>
    obtain ⟨b, a⟩ := o
    cases b <;> cases a <;>
      simp [proj, List.filter_cons, List.count_cons, ih] <;> omega

theorem stepOp_buf_other {R : Type} (dec : List Nat → Option R)
    (data : List Nat) (st : ForkState R) (o : Bool × FAct) (b : Bool)
    (hb : o.1 ≠ b) : bufOf b (stepOp dec data st o) = bufOf b st := by
  obtain ⟨b₂, a⟩ := o
  cases b <;> cases b₂ <;> cases a <;> simp_all [stepOp, bufOf] <;>
    cases JitStream.insert dec st.s1 data <;>
      try cases JitStream.insert dec st.s2 data <;> simp [bufOf]

theorem execOps_buf_of_proj_nil {R : Type} (dec : List Nat → Option R)
    (data : List Nat) (b : Bool) :
    ∀ (sched : List (Bool × FAct)) (st : ForkState R), proj b sched = [] →
      bufOf b (execOps dec data sched st) = bufOf b st := by
  intro sched
  induction sched with
  | nil => intro st _; rfl
  | cons o t ih =>
    intro st hp
    have hob : o.1 ≠ b := by
      intro hc
      simp [proj, List.filter_cons, hc] at hp
    have hpt : proj b t = [] := by
      simp only [proj, List.filter_cons] at hp ⊢
      rcases hfe : (o.1 == b) with _ | _
      · simpa [hfe] using hp
      · exact absurd (by simpa using hfe) hob
    rw [execOps_cons, ih _ hpt, stepOp_buf_other dec data st o b hob]

theorem stepOp_fl_buf {R : Type} (dec : List Nat → Option R)
    (data : List Nat) (st : ForkState R) (b : Bool) :
    bufOf b (stepOp dec data st (b, FAct.fl)) = [] := by
  cases b <;> simp [stepOp, bufOf, JitStream.flush]

theorem execOps_buf_empty {R : Type} (dec : List Nat → Option R)
    (data : List Nat) (b : Bool) :
    ∀ (sched : List (Bool × FAct)) (st : ForkState R) (l : List FAct),
      proj b sched = l ++ [FAct.fl] →
      bufOf b (execOps dec data sched st) = [] := by
  intro sched
  induction sched with
  | nil =>
    intro st l h
    exact absurd h (by simp [proj])
  | cons o t ih =>
    intro st l h
    by_cases hb : o.1 = b
    · have hcons : proj b (o :: t) = o.2 :: proj b t := by
        simp [proj, List.filter_cons, hb]
      rw [hcons] at h
      cases l with
      | nil =>
        have h₂ := h
        rw [List.nil_append] at h₂
        have ha : o.2 = FAct.fl := by
          injection h₂ with h₃ h₄
        have hpt : proj b t = [] := by
          injection h₂ with h₃ h₄
        rw [execOps_cons, execOps_buf_of_proj_nil dec data b t _ hpt]
        have ho : o = (b, FAct.fl) := by
          obtain ⟨b₂, a⟩ := o
          simp_all
        rw [ho]
        exact stepOp_fl_buf dec data st b
      | cons x l₂ =>
        have hpt : proj b t = l₂ ++ [FAct.fl] := by
          have := congrArg List.tail h
          simpa using this
        rw [execOps_cons]
        exact ih _ l₂ hpt
    · have hcons : proj b (o :: t) = proj b t := by
        simp [proj, List.filter_cons, hb]
      rw [hcons] at h
      rw [execOps_cons]
      exact ih _ l h

/-- C1: for every DeCollectionStream and every byte payload that decodes
to a record r, insert(bytes) decodes one logical record and pushes it with
weight +1, and delete(bytes) decodes the same payload the same way and
pushes the record with weight -1. -/
theorem c1_insert_plus_one_delete_minus_one {R : Type}
    (dec : List Nat → Option R) (s : JitStream R) (data : List Nat) (r : R)
    (h : dec data = some r) :
    JitStream.insert dec s data = .ok ⟨s.buffer ++ [(r, 1)]⟩ ∧
    JitStream.delete dec s data = .ok ⟨s.buffer ++ [(r, -1)]⟩ := by
  constructor <;> simp [JitStream.insert, JitStream.delete, JitStream.push, h]

theorem c1_insert_plus_one_delete_minus_one_witness :
    dec₀ [7] = some 7 ∧
      (JitStream.insert dec₀ ⟨[]⟩ [7] = .ok ⟨[] ++ [(7, 1)]⟩ ∧
       JitStream.delete dec₀ ⟨[]⟩ [7] = .ok ⟨[] ++ [(7, -1)]⟩) :=
  ⟨rfl, c1_insert_plus_one_delete_minus_one dec₀ ⟨[]⟩ [7] 7 rfl⟩

/-- C2: insert(r) followed by delete(r) on the same stream before the next
step contributes weights +1 and -1 that cancel: after the flush the net
weight of r over the destination is unchanged, and when nothing else
contributed weight to r the consolidated Z-set shows no visible row for r
(net weight 0 means absent). -/
theorem c2_insert_delete_cancels {R : Type} [DecidableEq R]
    (dec : List Nat → Option R) (s : JitStream R) (dest : List (R × Int))
    (data : List Nat) (r : R) (h : dec data = some r) :
    ∃ s₁ s₂, JitStream.insert dec s data = .ok s₁ ∧
      JitStream.delete dec s₁ data = .ok s₂ ∧
      wt (s₂.flush dest).2 r = wt (dest ++ s.buffer) r ∧
      (wt (dest ++ s.buffer) r = 0 → wt (s₂.flush dest).2 r = 0) := by
  have key :
      wt ((⟨(s.buffer ++ [(r, 1)]) ++ [(r, -1)]⟩ : JitStream R).flush dest).2 r =
        wt (dest ++ s.buffer) r := by
    simp [JitStream.flush, wt_append, wt_cons, wt_nil]
  refine ⟨⟨s.buffer ++ [(r, 1)]⟩, ⟨(s.buffer ++ [(r, 1)]) ++ [(r, -1)]⟩,
    ?_, ?_, key, fun h0 => key.trans h0⟩
  · simp [JitStream.insert, JitStream.push, h]
  · simp [JitStream.delete, JitStream.push, h]

theorem c2_insert_delete_cancels_witness :
    dec₀ [7] = some 7 ∧
      (∃ s₁ s₂, JitStream.insert dec₀ (⟨[]⟩ : JitStream Nat) [7] = .ok s₁ ∧
        JitStream.delete dec₀ s₁ [7] = .ok s₂ ∧
        wt (s₂.flush []).2 7 = wt ([] ++ ([] : List (Nat × Int))) 7 ∧
        (wt ([] ++ ([] : List (Nat × Int))) 7 = 0 →
          wt (s₂.flush []).2 7 = 0)) :=
  ⟨rfl, c2_insert_delete_cancels dec₀ ⟨[]⟩ [] [7] 7 rfl⟩

/-- C4: the claim says configure_deserializer never panics on an
unimplemented format; in the source the Csv arm of the match is the todo
macro, so requesting Csv panics instead of returning a format-specific
ControllerError. -/
theorem c4_csv_configure_panics {R : Type} (h : DeZSetHandles R) :
    h.configure_deserializer RecordFormat.Csv = .panicked todoMsg := rfl

/-- C5 counterexample: a duplicate-input-endpoint error surfaced through
the ControllerError wrapper carries the code ConfigError.DuplicateInputEndpoint
rather than the bare DuplicateInputEndpoint named by the claim. -/
theorem c5_wrapper_code_differs :
    ControllerError.error_code
        (.Config (.DuplicateInputEndpoint ("ep"))) ≠ "DuplicateInputEndpoint" := by
  decide

/-- C5 amended: error_code on ConfigError is the bare variant name for the
duplicate and unknown transport, format and stream variants; surfaced
through the ControllerError wrapper a config error code is prefixed with
ConfigError dot; ParseError, InputTransportError, PipelineTerminating and
DbspPanic carry their bare codes on ControllerError. -/
theorem c5_error_codes :
    (∀ s, ConfigError.error_code (.DuplicateInputEndpoint s) = "DuplicateInputEndpoint") ∧
    (∀ s, ConfigError.error_code (.DuplicateOutputEndpoint s) = "DuplicateOutputEndpoint") ∧
    (∀ s, ConfigError.error_code (.UnknownInputFormat s) = "UnknownInputFormat") ∧
    (∀ s, ConfigError.error_code (.UnknownOutputFormat s) = "UnknownOutputFormat") ∧
    (∀ s, ConfigError.error_code (.UnknownInputTransport s) = "UnknownInputTransport") ∧
    (∀ s, ConfigError.error_code (.UnknownOutputTransport s) = "UnknownOutputTransport") ∧
    (∀ s, ConfigError.error_code (.UnknownInputStream s) = "UnknownInputStream") ∧
    (∀ s, ConfigError.error_code (.UnknownOutputStream s) = "UnknownOutputStream") ∧
    (∀ e : ConfigError,
      ControllerError.error_code (.Config e) = "ConfigError." ++ e.error_code) ∧
    (∀ n s, ControllerError.error_code (.ParseError n s) = "ParseError") ∧
    (∀ n f s,
      ControllerError.error_code (.InputTransportError n f s) = "InputTransportError") ∧
    ControllerError.error_code .PipelineTerminating = "PipelineTerminating" ∧
    ControllerError.error_code .DbspPanic = "DbspPanic" :=
  ⟨fun _ => rfl, fun _ => rfl, fun _ => rfl, fun _ => rfl, fun _ => rfl,
    fun _ => rfl, fun _ => rfl, fun _ => rfl, fun _ => rfl, fun _ _ => rfl,
    fun _ _ _ => rfl, rfl, rfl⟩

/-- C7: in the event trace of the run step cycle, the appends of all input
endpoints occupy exactly the positions before the step, the step follows
them, and the consolidations of the output endpoints occupy exactly the
positions after the step. -/
theorem c7_step_cycle_order {K : Type} (inputs outputs : List K) :
    (runTrace inputs outputs).take inputs.length = inputs.map RunEvent.append ∧
    (runTrace inputs outputs)[inputs.length]? = some RunEvent.step ∧
    (runTrace inputs outputs).drop (inputs.length + 1) =
      outputs.map RunEvent.consolidate := by
  refine ⟨?_, ?_, ?_⟩
  · rw [runTrace, List.append_assoc]
    exact List.take_left' (by simp)
  · rw [runTrace, List.append_assoc,
      List.getElem?_append_right (by simp)]
    simp
  · rw [runTrace]
    exact List.drop_left' (by simp)

/-- C8: every operation attempted while the pipeline is Terminating or
Terminated fails immediately with the dedicated PipelineTerminating error,
whose code is PipelineTerminating and whose message says the operation
failed to complete because the pipeline is shutting down. -/
theorem c8_terminating_fails_fast {A : Type} (st : PipelineState) (op : A)
    (h : st = PipelineState.Terminating ∨ st = PipelineState.Terminated) :
    guardOperation st op = .error .PipelineTerminating ∧
    ControllerError.error_code .PipelineTerminating = "PipelineTerminating" ∧
    ControllerError.display .PipelineTerminating =
      "Operation failed to complete because the pipeline is shutting down" := by
  refine ⟨?_, rfl, rfl⟩
  simp [guardOperation, h]

theorem bufOf_false {R : Type} (st : ForkState R) :
    bufOf false st = st.s1.buffer := rfl

theorem bufOf_true {R : Type} (st : ForkState R) :
    bufOf true st = st.s2.buffer := rfl

/-- C3: two streams forked from the same fresh endpoint stream, each
performing insert(r) once and both flushed before the same step, produce
in every interleaving the same consolidated output (the same net weight
for every key) as a single stream performing insert(r) twice and flushing
once: r accumulates net weight 2. -/
theorem c3_fork_commutes {R : Type} [DecidableEq R]
    (dec : List Nat → Option R) (s : JitStream R) (dest : List (R × Int))
    (data : List Nat) (r : R) (sched : List (Bool × FAct))
    (h : dec data = some r) (hs : s.buffer = [])
    (h1 : proj false sched = [FAct.ins, FAct.fl])
    (h2 : proj true sched = [FAct.ins, FAct.fl]) :
    ∃ t₁ t₂, JitStream.insert dec s data = .ok t₁ ∧
      JitStream.insert dec t₁ data = .ok t₂ ∧
      ∀ k, wt (execOps dec data sched ⟨s.fork, s.fork, dest⟩).dest k =
        wt (t₂.flush dest).2 k := by
  refine ⟨⟨s.buffer ++ [(r, 1)]⟩, ⟨(s.buffer ++ [(r, 1)]) ++ [(r, 1)]⟩, ?_, ?_, ?_⟩
  · simp [JitStream.insert, JitStream.push, h]
  · simp [JitStream.insert, JitStream.push, h]
  · intro k
    have hb1 : bufOf false (execOps dec data sched ⟨s.fork, s.fork, dest⟩) = [] :=
      execOps_buf_empty dec data false sched _ [FAct.ins] (by simpa using h1)
    have hb2 : bufOf true (execOps dec data sched ⟨s.fork, s.fork, dest⟩) = [] :=
      execOps_buf_empty dec data true sched _ [FAct.ins] (by simpa using h2)
    have ht := execOps_totalWt h sched ⟨s.fork, s.fork, dest⟩ k
    have hc : (sched.filter (fun o => o.2 == FAct.ins)).length = 2 := by
      rw [proj_ins_count, h1, h2]
      rfl
    rw [hc] at ht
    have hfinal :
        totalWt (execOps dec data sched ⟨s.fork, s.fork, dest⟩) k =
          wt (execOps dec data sched ⟨s.fork, s.fork, dest⟩).dest k := by
      unfold totalWt
      rw [← bufOf_false, ← bufOf_true, hb1, hb2, wt_nil]
      ring
    have hinit : totalWt ⟨s.fork, s.fork, dest⟩ k = wt dest k := by
      unfold totalWt
      simp [JitStream.fork, hs, wt_nil]
    rw [hfinal, hinit] at ht
    have hrhs :
        wt ((⟨(s.buffer ++ [(r, 1)]) ++ [(r, 1)]⟩ : JitStream R).flush dest).2 k =
          wt dest k + 2 * (if r = k then 1 else 0) := by
      simp [JitStream.flush, wt_append, wt_cons, wt_nil, hs]
      by_cases hrk : r = k
      · simp [hrk]
      · simp [hrk]
    rw [ht, hrhs]
    push_cast
    ring

theorem c3_fork_commutes_witness :
    dec₀ [7] = some 7 ∧ (⟨[]⟩ : JitStream Nat).buffer = [] ∧
    proj false sched₀ = [FAct.ins, FAct.fl] ∧
    proj true sched₀ = [FAct.ins, FAct.fl] ∧
    (∃ t₁ t₂, JitStream.insert dec₀ (⟨[]⟩ : JitStream Nat) [7] = .ok t₁ ∧
      JitStream.insert dec₀ t₁ [7] = .ok t₂ ∧
      ∀ k, wt (execOps dec₀ [7] sched₀
          ⟨JitStream.fork ⟨[]⟩, JitStream.fork ⟨[]⟩, []⟩).dest k =
        wt (t₂.flush []).2 k) :=
  ⟨rfl, rfl, by decide, by decide,
    c3_fork_commutes dec₀ ⟨[]⟩ [] [7] 7 sched₀ rfl rfl (by decide) (by decide)⟩

theorem c8_terminating_fails_fast_witness :
    (PipelineState.Terminated = PipelineState.Terminating ∨
      PipelineState.Terminated = PipelineState.Terminated) ∧
    (guardOperation PipelineState.Terminated (0 : Nat) =
        .error .PipelineTerminating ∧
      ControllerError.error_code .PipelineTerminating = "PipelineTerminating" ∧
      ControllerError.display .PipelineTerminating =
        "Operation failed to complete because the pipeline is shutting down") :=
  ⟨Or.inr rfl, c8_terminating_fails_fast PipelineState.Terminated 0 (Or.inr rfl)⟩

theorem wt_eq_zero_of_not_mem {K : Type} [DecidableEq K]
    (l : List (K × Int)) (k : K) (h : k ∉ l.map Prod.fst) : wt l k = 0 := by
  induction l with
  | nil => rfl
  | cons p t ih =>
    obtain ⟨k₂, w⟩ := p
    simp only [List.map_cons, List.mem_cons] at h
    push_neg at h
    rw [wt_cons, if_neg (fun hc => h.1 hc.symm), ih h.2]
    ring

theorem wt_eq_zero_of_forall_lt {K : Type} [LinearOrder K]
    (t : List (K × Int)) (k : K) (h : ∀ a ∈ t, k < a.1) : wt t k = 0 := by
  refine wt_eq_zero_of_not_mem t k (fun hmem => ?_)
  obtain ⟨a, ha, hak⟩ := List.mem_map.1 hmem
  exact absurd (hak ▸ h a ha) (lt_irrefl k)

/-- C6: every row in the emitted output of a step carries exactly its net
weight change accumulated since the last step and no row with weight 0 is
emitted; conversely every key whose net change is nonzero is emitted. -/
theorem c6_emitted_is_net_changes {K : Type} [DecidableEq K]
    (pending : List (K × Int)) (k : K) (w : Int) :
    ((k, w) ∈ emitOutput (consolidate pending) → w = wt pending k ∧ w ≠ 0) ∧
    (wt pending k ≠ 0 → (k, wt pending k) ∈ emitOutput (consolidate pending)) := by
  constructor
  · intro hm
    rw [emitOutput, List.mem_filter] at hm
    obtain ⟨hm, _⟩ := hm
    rw [consolidate, List.mem_filterMap] at hm
    obtain ⟨a, _, hfa⟩ := hm
    by_cases h0 : wt pending a = 0
    · rw [if_pos h0] at hfa
      exact absurd hfa (by simp)
    · rw [if_neg h0] at hfa
      have hak : a = k := congrArg Prod.fst (Option.some.inj hfa)
      have hwv : wt pending a = w := congrArg Prod.snd (Option.some.inj hfa)
      subst hak
      exact ⟨hwv.symm, hwv ▸ h0⟩
  · intro h0
    rw [emitOutput, List.mem_filter]
    refine ⟨?_, by simpa using h0⟩
    rw [consolidate, List.mem_filterMap]
    refine ⟨k, ?_, if_neg h0⟩
    rw [List.mem_dedup]
    by_contra hk
    exact h0 (wt_eq_zero_of_not_mem pending k hk)

theorem c6_emitted_is_net_changes_witness :
    ((3 : Int) = wt pending₀ 2 ∧ (3 : Int) ≠ 0) ∧
    ((2, wt pending₀ 2) ∈ emitOutput (consolidate pending₀)) :=
  ⟨(c6_emitted_is_net_changes pending₀ 2 3).1 (by decide),
    (c6_emitted_is_net_changes pending₀ 2 3).2 (by decide)⟩

theorem weighted_count_nonneg {K : Type} (set : List (K × Int))
    (h : ∀ p ∈ set, 0 ≤ p.2) : 0 ≤ weighted_count set := by
  induction set with
  | nil => simp [weighted_count]
  | cons p t ih =>
    have hp : 0 ≤ p.2 := h p (by simp)
    have ht : ∀ q ∈ t, 0 ≤ q.2 := fun q hq => h q (by simp [hq])
    have := ih ht
    simp only [weighted_count, List.map_cons, List.sum_cons] at *
    linarith

theorem zsetRowsGo_nonneg {K Row : Type} (to_row : K → Row)
    (set : List (K × Int)) (h : ∀ p ∈ set, 0 ≤ p.2) :
    zsetRowsGo to_row set =
      some (set.flatMap (fun p => List.replicate p.2.toNat (to_row p.1))) := by
  induction set with
  | nil => simp [zsetRowsGo]
  | cons p t ih =>
    obtain ⟨k, w⟩ := p
    have hw : (0 : Int) ≤ w := h (k, w) (by simp)
    have ht : ∀ q ∈ t, 0 ≤ q.2 := fun q hq => h q (by simp [hq])
    rw [zsetRowsGo, if_neg (not_lt.2 hw), ih ht]
    simp [List.flatMap_cons]

theorem bind_replicate_length {K Row : Type} (to_row : K → Row)
    (set : List (K × Int)) (h : ∀ p ∈ set, 0 ≤ p.2) :
    (set.flatMap (fun p => List.replicate p.2.toNat (to_row p.1))).length =
      (weighted_count set).toNat := by
  induction set with
  | nil => simp [weighted_count]
  | cons p t ih =>
    have hw : (0 : Int) ≤ p.2 := h p (by simp)
    have ht : ∀ q ∈ t, 0 ≤ q.2 := fun q hq => h q (by simp [hq])
    have hwc := weighted_count_nonneg t ht
    rw [List.flatMap_cons, List.length_append, List.length_replicate, ih ht]
    rw [show weighted_count (p :: t) = p.2 + weighted_count t by
      simp [weighted_count]]
    rw [Int.toNat_add hw hwc]

/-- C9: on a Z-set all of whose weights are nonnegative, zset_to_rows
reaches neither panic branch and returns, for each key of weight w,
exactly w copies of that key converted row, so the vector length equals
the weighted count of the Z-set. -/
theorem c9_zset_to_rows_nonneg {K Row : Type} (to_row : K → Row)
    (set : List (K × Int)) (h : ∀ p ∈ set, 0 ≤ p.2) :
    zset_to_rows to_row set =
      some (set.flatMap (fun p => List.replicate p.2.toNat (to_row p.1))) ∧
    (set.flatMap (fun p => List.replicate p.2.toNat (to_row p.1))).length =
      (weighted_count set).toNat := by
  constructor
  · rw [zset_to_rows, if_neg (not_lt.2 (weighted_count_nonneg set h))]
    exact zsetRowsGo_nonneg to_row set h
  · exact bind_replicate_length to_row set h

theorem c9_zset_to_rows_nonneg_witness :
    (∀ p ∈ set₀, (0 : Int) ≤ p.2) ∧
    (zset_to_rows (fun n => n) set₀ =
        some (set₀.flatMap (fun p => List.replicate p.2.toNat p.1)) ∧
      (set₀.flatMap (fun p => List.replicate p.2.toNat p.1)).length =
        (weighted_count set₀).toNat) :=
  ⟨by decide, c9_zset_to_rows_nonneg (fun n => n) set₀ (by decide)⟩

theorem wt_zneg {K : Type} [DecidableEq K] (l : List (K × Int)) (k : K) :
    wt (zneg l) k = - wt l k := by
  induction l with
  | nil => rfl
  | cons p t ih =>
    obtain ⟨k₂, w⟩ := p
    simp [zneg, wt_cons] at *
    rw [ih]
    by_cases hk : k₂ = k
    · simp [hk]
      ring
    · simp [hk]

theorem wt_zadd {K : Type} [LinearOrder K] :
    ∀ (a b : List (K × Int)) (k : K), wt (zadd a b) k = wt a k + wt b k := by
  intro a
  induction a with
  | nil =>
    intro b k
    simp [zadd, wt_nil]
  | cons p xs ih =>
    intro b
    induction b with
    | nil =>
      intro k
      simp [zadd, wt_nil]
    | cons q ys ihb =>
      intro k
      obtain ⟨k₁, w₁⟩ := p
      obtain ⟨k₂, w₂⟩ := q
      by_cases h12 : k₁ < k₂
      · have e1 : zadd ((k₁, w₁) :: xs) ((k₂, w₂) :: ys) =
            (k₁, w₁) :: zadd xs ((k₂, w₂) :: ys) := by
          simp [zadd, h12]
        rw [e1]
        simp only [wt_cons, ih]
        ring
      · by_cases h21 : k₂ < k₁
        · have e2 : zadd ((k₁, w₁) :: xs) ((k₂, w₂) :: ys) =
              (k₂, w₂) :: zadd ((k₁, w₁) :: xs) ys := by
            simp [zadd, h12, h21]
          rw [e2]
          simp only [wt_cons, ihb]
          ring
        · have hk : k₁ = k₂ := le_antisymm (not_lt.1 h21) (not_lt.1 h12)
          subst hk
          by_cases hw : w₁ + w₂ = 0
          · have e3 : zadd ((k₁, w₁) :: xs) ((k₁, w₂) :: ys) = zadd xs ys := by
              simp [zadd, h12, h21, hw]
            rw [e3, ih]
            simp only [wt_cons]
            by_cases hkk : k₁ = k
            · simp [hkk]
              linarith
            · simp [hkk]
          · have e4 : zadd ((k₁, w₁) :: xs) ((k₁, w₂) :: ys) =
                (k₁, w₁ + w₂) :: zadd xs ys := by
              simp [zadd, h12, h21, hw]
            rw [e4]
            simp only [wt_cons, ih]
            by_cases hkk : k₁ = k
            · simp [hkk]
              ring
            · simp [hkk]

theorem zadd_self_neg {K : Type} [LinearOrder K] (l : List (K × Int)) :
    zadd l (zneg l) = [] := by
  induction l with
  | nil => simp [zadd, zneg]
  | cons p t ih =>
    obtain ⟨k, w⟩ := p
    have hn : zneg ((k, w) :: t) = (k, -w) :: zneg t := rfl
    rw [hn]
    have e : zadd ((k, w) :: t) ((k, -w) :: zneg t) = zadd t (zneg t) := by
      simp [zadd, lt_irrefl]
    rw [e, ih]

theorem zset_canonical {K : Type} [LinearOrder K] :
    ∀ (l r : List (K × Int)), ZSorted l → ZSorted r → ZNonzero l →
      ZNonzero r → (∀ k, wt l k = wt r k) → l = r := by
  intro l
  induction l with
  | nil =>
    intro r _ hsr _ hnr hw
    cases r with
    | nil => rfl
    | cons q u =>
      obtain ⟨k₂, w₂⟩ := q
      exfalso
      rw [ZSorted, List.pairwise_cons] at hsr
      have hu0 : wt u k₂ = 0 :=
        wt_eq_zero_of_forall_lt u k₂ (fun a ha => hsr.1 a ha)
      have h := hw k₂
      rw [wt_nil, wt_cons, hu0] at h
      simp at h
      exact hnr (k₂, w₂) (by simp) h.symm
  | cons p t ih =>
    intro r hsl hsr hnl hnr hw
    obtain ⟨k₁, w₁⟩ := p
    rw [ZSorted, List.pairwise_cons] at hsl
    have ht0 : wt t k₁ = 0 :=
      wt_eq_zero_of_forall_lt t k₁ (fun a ha => hsl.1 a ha)
    cases r with
    | nil =>
      exfalso
      have h := hw k₁
      rw [wt_nil, wt_cons, ht0] at h
      simp at h
      exact hnl (k₁, w₁) (by simp) h
    | cons q u =>
      obtain ⟨k₂, w₂⟩ := q
      rw [ZSorted, List.pairwise_cons] at hsr
      have hu0 : wt u k₂ = 0 :=
        wt_eq_zero_of_forall_lt u k₂ (fun a ha => hsr.1 a ha)
      rcases lt_trichotomy k₁ k₂ with hlt | heq | hgt
      · exfalso
        have hrk : wt ((k₂, w₂) :: u) k₁ = 0 := by
          refine wt_eq_zero_of_forall_lt _ k₁ (fun a ha => ?_)
          rcases List.mem_cons.1 ha with h | h
          · rw [h]
            exact hlt
          · exact hlt.trans (hsr.1 a h)
        have h := hw k₁
        rw [wt_cons, ht0, hrk] at h
        simp at h
        exact hnl (k₁, w₁) (by simp) h
      · subst heq
        have hw12 : w₁ = w₂ := by
          have h := hw k₁
          rw [wt_cons, wt_cons, ht0, hu0] at h
          simpa using h
        have htail : t = u := by
          refine ih u hsl.2 hsr.2 (fun a ha => hnl a (by simp [ha]))
            (fun a ha => hnr a (by simp [ha])) (fun k => ?_)
          by_cases hk : k₁ = k
          · rw [← hk, ht0, hu0]
          · have h := hw k
            rw [wt_cons, wt_cons, if_neg hk, if_neg hk] at h
            simpa using h
        rw [hw12, htail]
      · exfalso
        have hlk : wt ((k₁, w₁) :: t) k₂ = 0 := by
          refine wt_eq_zero_of_forall_lt _ k₂ (fun a ha => ?_)
          rcases List.mem_cons.1 ha with h | h
          · rw [h]
            exact hgt
          · exact hgt.trans (hsl.1 a h)
        have h := hw k₂
        rw [hlk, wt_cons, hu0] at h
        simp at h
        exact hnr (k₂, w₂) (by simp) h.symm

/-- C10: must_equal(left, right) returns true exactly when left and right
are equal as Z-sets, that is when every key has the same net weight in
both, which is when the difference left plus the negation of right is the
zero Z-set; stated under the OrdZSet representation invariants of strictly
sorted keys and nonzero stored weights. -/
theorem c10_must_equal_iff_equal {K : Type} [LinearOrder K]
    (left right : List (K × Int)) (hsl : ZSorted left) (hsr : ZSorted right)
    (hnl : ZNonzero left) (hnr : ZNonzero right) :
    must_equal left right = true ↔ ∀ k, wt left k = wt right k := by
  constructor
  · intro he k
    have hempty : zadd left (zneg right) = [] := by
      rw [must_equal] at he
      exact List.isEmpty_iff.1 he
    have h := wt_zadd left (zneg right) k
    rw [hempty, wt_nil, wt_zneg] at h
    linarith
  · intro hw
    have hlr : left = right := zset_canonical left right hsl hsr hnl hnr hw
    rw [must_equal, hlr, zadd_self_neg]
    rfl

theorem c10_must_equal_iff_equal_witness :
    (ZSorted zs₀ ∧ ZSorted zs₀ ∧ ZNonzero zs₀ ∧ ZNonzero zs₀) ∧
      (must_equal zs₀ zs₀ = true ↔ ∀ k, wt zs₀ k = wt zs₀ k) :=
  ⟨⟨by unfold ZSorted; decide, by unfold ZSorted; decide,
    by unfold ZNonzero; decide, by unfold ZNonzero; decide⟩,
    c10_must_equal_iff_equal zs₀ zs₀ (by unfold ZSorted; decide)
      (by unfold ZSorted; decide) (by unfold ZNonzero; decide)
      (by unfold ZNonzero; decide)⟩

